import Mathlib

/-!
Verification of the DPS (diffusion posterior sampling) core of the repository:
`src/diffusion/respace.py` and `src/measurement_models/measurement_models.py`.

Modelling conventions.
* Tensors are modelled over exact rationals `ℚ`.  A batched tensor is a
  `Batch` (a batch of flattened signals), matching the `N x C x H x W`
  layout flattened per batch element; elementwise torch arithmetic becomes
  `List.zipWith` arithmetic.
* External torch primitives that are collaborators of the core (the
  denoising model wrapped by `p_mean_variance`, `th.linalg.norm`, `th.exp`,
  `th.autograd.grad`, `th.randn_like`, the solver's per-order update
  formulas from `dpm_solver`) are oracle function parameters carried in the
  sampler structures; the repository's own arithmetic is embedded directly.
* Failing python code (`raise`, failing `assert`) is embedded as
  `Except String`.
-/

/-- A single flattened signal (one batch element). -/
abbrev Signal := List ℚ

/-- A batched tensor: a list of flattened batch elements. -/
abbrev Batch := List Signal

/-- Elementwise binary operation on batched tensors. -/
def zipWithB (f : ℚ → ℚ → ℚ) (a b : Batch) : Batch :=
  List.zipWith (List.zipWith f) a b

/-- Elementwise subtraction `a - b`. -/
def bsub (a b : Batch) : Batch := zipWithB (fun p q => p - q) a b

/-- Elementwise addition `a + b`. -/
def badd (a b : Batch) : Batch := zipWithB (fun p q => p + q) a b

/-- Scalar multiplication `c * a` (torch broadcasting of a scalar). -/
def bsmul (c : ℚ) (a : Batch) : Batch := a.map (List.map (fun v => c * v))

/-- The zero batch of the same shape as `a` (`th.zeros_like`). -/
def bzero (a : Batch) : Batch := a.map (List.map (fun _ => (0 : ℚ)))

/-- Elementwise absolute difference `th.abs(x - y)`. -/
def absResidual (x y : Batch) : Batch := zipWithB (fun p q => |p - q|) x y

/-- The noise model selected at sampler construction
(`respace.py`, `DiffusionPosteriorSampling.__init__`). -/
inductive NoiseModel where
  | gaussian : NoiseModel
  | poisson : NoiseModel
deriving DecidableEq

/-- Sum of squared differences of two signals. -/
def sqDiffSum (x y : Signal) : ℚ :=
  (List.zipWith (fun a b => (a - b) ^ 2) x y).sum

/-- `th.nn.MSELoss(reduction="sum")` on equally shaped batched tensors:
the sum of squared differences over all elements. -/
def mseSumB (x y : Batch) : ℚ := (List.zipWith sqDiffSum x y).sum

/-- The per-element weight of `PoissonMseLoss.forward`:
`1 / (2 * th.abs(y).clamp(min=1e-2))`. -/
def poissonWeight (b : ℚ) : ℚ := 1 / (2 * max |b| (1 / 100))

/-- `PoissonMseLoss.forward` on equally shaped batched tensors:
`(weights * diff * diff).sum()`. -/
def poissonLossB (x y : Batch) : ℚ :=
  (List.zipWith
    (fun xs ys => (List.zipWith (fun a b => poissonWeight b * (a - b) ^ 2) xs ys).sum)
    x y).sum

/-- `self.measurement_loss`, as selected by `__init__` from the noise model. -/
def mLoss : NoiseModel → Batch → Batch → ℚ
  | NoiseModel.gaussian => mseSumB
  | NoiseModel.poisson => poissonLossB

/-- Output of `p_mean_variance` (`out["mean"]`, `out["log_variance"]`,
`out["pred_xstart"]`). -/
structure PMVOut where
  mean : Batch
  log_variance : Batch
  pred_xstart : Batch

/-- The state of a `DiffusionPosteriorSampling` object after construction,
restricted to the fields the sampling loop reads.  Function-valued fields
are the external collaborators:
* `pmv` is `self.p_mean_variance(model, x, t)` with the model fixed;
* `normFn` is `th.linalg.norm`;
* `gradFn` is `th.autograd.grad(loss, x)[0]`, the autodiff oracle giving
  the gradient of the measurement loss with respect to the noisy sample;
* `expFn` is `th.exp` applied to one scalar. -/
structure DPSSampler where
  pmv : Batch → List ℕ → PMVOut
  measurement_model : Batch → Batch
  measurement : Batch
  noise_model : NoiseModel
  step_size : ℚ
  normFn : Batch → ℚ
  gradFn : Batch → List ℕ → Batch
  expFn : ℚ → ℚ

namespace DiffusionPosteriorSampling

/-- `DiffusionPosteriorSampling.dps_update` (respace.py lines 173-206).
The 3-D/4-D unsqueeze normalisation is the identity in the flattened
model.  `y_pred = self.measurement_model(x0)`, the loss is the configured
measurement loss against `self.measurement`,
`zeta_i = step_size / norm(abs(y_pred - measurement))` when
`loss.item() > 0` and `step_size` otherwise, and the result is
`x_old - zeta_i * grad`. -/
def dps_update (self : DPSSampler) (x : Batch) (t : List ℕ) (x0 x_old : Batch) : Batch :=
  let y_pred := self.measurement_model x0
  let loss := mLoss self.noise_model y_pred self.measurement
  let grad := self.gradFn x t
  let zeta_i :=
    if 0 < loss then self.step_size / self.normFn (absResidual y_pred self.measurement)
    else self.step_size
  bsub x_old (bsmul zeta_i grad)

end DiffusionPosteriorSampling

/-- The loop body of `SpacedDiffusion.__init__` (respace.py lines 88-94):
`for i, alpha_cumprod in enumerate(base_diffusion.alphas_cumprod)`, keeping
`new_betas` and `timestep_map`; `i` is the enumeration counter and `last`
is `last_alpha_cumprod` (initially `1.0`).  Retained indices append
`1 - alpha_cumprod / last_alpha_cumprod` and update the running cumulative
fraction. -/
def spacedGo (use : Finset ℕ) : ℕ → List ℚ → ℚ → List ℚ × List ℕ
  | _, [], _ => ([], [])
  | i, a :: rest, last =>
    if i ∈ use then
      let p := spacedGo use (i + 1) rest a
      ((1 - a / last) :: p.1, i :: p.2)
    else
      spacedGo use (i + 1) rest last

/-- `SpacedDiffusion.__init__`'s derived schedule: the pair
`(new_betas, timestep_map)` built from the retained-index set and the
original `alphas_cumprod` sequence, starting from `last_alpha_cumprod = 1`. -/
def spacedSchedule (use : Finset ℕ) (alphas_cumprod : List ℚ) : List ℚ × List ℕ :=
  spacedGo use 0 alphas_cumprod 1

/-- Python `range(0, stop, step)` for a positive `step`: the increasing
arithmetic progression `0, step, 2*step, ...` of all multiples below
`stop` (its length is `ceil(stop / step)`). -/
def pyRange (stop step : ℕ) : List ℕ :=
  (List.range ((stop + step - 1) / step)).map (fun k => k * step)

/-- Python `round` on an exact rational: round to the nearest integer,
ties to the even integer (banker's rounding). -/
def pyRound (q : ℚ) : ℤ :=
  if q - ⌊q⌋ < 1 / 2 then ⌊q⌋
  else if 1 / 2 < q - ⌊q⌋ then ⌊q⌋ + 1
  else if ⌊q⌋ % 2 = 0 then ⌊q⌋ else ⌊q⌋ + 1

/-- The search loop of the `"ddimN"` branch of `space_timesteps`
(respace.py lines 42-44): `for i in range(1, num_timesteps)`, returning
the first stride whose strided range has the desired length.  `fuel` is
the number of remaining loop iterations (`num_timesteps - i`). -/
def findStrideLoop (num_timesteps desired_count : ℕ) : ℕ → ℕ → Option ℕ
  | _, 0 => none
  | i, fuel + 1 =>
    if (pyRange num_timesteps i).length = desired_count then some i
    else findStrideLoop num_timesteps desired_count (i + 1) fuel

/-- The `"ddimN"` branch of `space_timesteps` (respace.py lines 40-47):
return `set(range(0, num_timesteps, i))` for the first admissible stride
`i in range(1, num_timesteps)`, else raise `ValueError`. -/
def space_timesteps_ddim (num_timesteps desired_count : ℕ) : Except String (List ℕ) :=
  match findStrideLoop num_timesteps desired_count 1 (num_timesteps - 1) with
  | some i => Except.ok (pyRange num_timesteps i)
  | none => Except.error "cannot create exactly the desired steps with an integer stride"

/-- `frac_stride` of one section (respace.py lines 59-62): `1` when the
section count is at most `1`, else `(size - 1) / (section_count - 1)`
(exact division in place of float division). -/
def fracStride (size section_count : ℕ) : ℚ :=
  if section_count ≤ 1 then 1
  else ((size : ℚ) - 1) / ((section_count : ℚ) - 1)

/-- The inner `for _ in range(section_count)` loop (respace.py lines
63-67): append `start_idx + round(cur_idx)` and advance
`cur_idx += frac_stride`, `section_count` times. -/
def takenSteps (start : ℤ) (frac : ℚ) : ℚ → ℕ → List ℤ
  | _, 0 => []
  | cur, k + 1 => (start + pyRound cur) :: takenSteps start frac (cur + frac) k

/-- Size of section `i` (respace.py line 54):
`size_per + (1 if i < extra else 0)`. -/
def sectionSize (size_per extra i : ℕ) : ℕ :=
  size_per + (if i < extra then 1 else 0)

/-- The outer `for i, section_count in enumerate(section_counts)` loop of
`space_timesteps` (respace.py lines 53-69), carrying the section index
`i` and `start_idx`; raises `ValueError` when a section is smaller than
its requested count, otherwise accumulates `all_steps`. -/
def sectionLoop (size_per extra : ℕ) : List ℕ → ℕ → ℕ → Except String (List ℤ)
  | [], _, _ => Except.ok []
  | section_count :: rest, i, start_idx =>
    if sectionSize size_per extra i < section_count then
      Except.error "cannot divide section into the requested steps"
    else
      match sectionLoop size_per extra rest (i + 1)
        (start_idx + sectionSize size_per extra i) with
      | Except.ok more =>
        Except.ok (takenSteps (start_idx : ℤ)
          (fracStride (sectionSize size_per extra i) section_count) 0
          section_count ++ more)
      | Except.error e => Except.error e

/-- The section-mode branch of `space_timesteps` (respace.py lines
48-70): `size_per = num_timesteps // len(section_counts)`,
`extra = num_timesteps % len(section_counts)`, then the per-section loop
starting at index `0` and `start_idx = 0`.  The python function returns
`set(all_steps)`; we return the list `all_steps` and prove it has no
duplicates. -/
def space_timesteps_sections (num_timesteps : ℕ) (section_counts : List ℕ) :
    Except String (List ℤ) :=
  sectionLoop (num_timesteps / section_counts.length)
    (num_timesteps % section_counts.length) section_counts 0 0

/-- The invariant that makes `pyRound_step_cond` applicable: `cur` is an
integer whenever the stride is exactly `1`. -/
def curInt (frac cur : ℚ) : Prop := frac = 1 → ∃ c : ℤ, cur = (c : ℚ)

/-- The total size of sections `i, i+1, ..., i+m-1`. -/
def sumSizes (size_per extra : ℕ) : ℕ → ℕ → ℕ
  | _, 0 => 0
  | i, m + 1 => sectionSize size_per extra i + sumSizes size_per extra (i + 1) m

/-- One step record of the ancestral sampler: the dictionary yielded by
`DiffusionPosteriorSampling.p_sample`
(`{"sample": ..., "pred_xstart": ..., "mean": ...}`). -/
structure StepRec where
  sample : Batch
  pred_xstart : Batch
  mean : Batch
deriving Inhabited

/-- `nonzero_mask * th.exp(0.5 * log_variance) * noise` (respace.py lines
234-235): per batch element, the mask is `1` when that element's timestep
is nonzero and `0` otherwise, broadcast over the flattened signal. -/
def scaledNoise (expFn : ℚ → ℚ) (t : List ℕ) (lv noise : Batch) : Batch :=
  List.zipWith
    (fun (ti : ℕ) (p : Signal × Signal) =>
      List.zipWith (fun l nz => (if ti ≠ 0 then (1 : ℚ) else 0) * expFn (1/2 * l) * nz)
        p.1 p.2)
    t (lv.zip noise)

/-- The prior-only ancestral proposal (respace.py line 235):
`out["mean"] + nonzero_mask * th.exp(0.5 * out["log_variance"]) * noise`. -/
def ancestralProposal (self : DPSSampler) (out : PMVOut) (t : List ℕ) (noise : Batch) :
    Batch :=
  badd out.mean (scaledNoise self.expFn t out.log_variance noise)

namespace DiffusionPosteriorSampling

/-- `DiffusionPosteriorSampling.p_sample` (respace.py lines 208-251):
query `p_mean_variance`, draw fresh `noise` (`th.randn_like`, supplied as
an oracle argument), form the ancestral proposal, run `dps_update` on it,
and return the step record. -/
def p_sample (self : DPSSampler) (x : Batch) (t : List ℕ) (noise : Batch) : StepRec :=
  let out := self.pmv x t
  let sample := badd out.mean (scaledNoise self.expFn t out.log_variance noise)
  let dps_sample := dps_update self x t out.pred_xstart sample
  { sample := dps_sample, pred_xstart := out.pred_xstart, mean := out.mean }

/-- The `for i in tqdm(indices)` body of `p_sample_loop_progressive`
(respace.py lines 269-288) over an explicit list of remaining timestep
indices: at index `i` the batch timestep tensor is `[i] * shape[0]`, the
yielded record is appended, and the rolling state becomes
`out["sample"]`.  `noiseF i` is the `th.randn_like` draw of the step at
timestep `i`. -/
def loopGo (self : DPSSampler) (noiseF : ℕ → Batch) (N : ℕ) :
    List ℕ → Batch → List StepRec
  | [], _ => []
  | i :: rest, x =>
    p_sample self x (List.replicate N i) (noiseF i) ::
      loopGo self noiseF N rest (p_sample self x (List.replicate N i) (noiseF i)).sample

/-- `DiffusionPosteriorSampling.p_sample_loop_progressive` (respace.py
lines 253-288): iterate over `indices = list(range(self.num_timesteps))[::-1]`
starting from the initial noise `x_init` (`th.randn(*shape)`), yielding
one record per timestep. -/
def p_sample_loop_progressive (self : DPSSampler) (noiseF : ℕ → Batch) (N T : ℕ)
    (x_init : Batch) : List StepRec :=
  loopGo self noiseF N ((List.range T).reverse) x_init

/-- `DiffusionPosteriorSampling.p_sample_loop` (respace.py lines
300-332): run the progressive loop and return the final record's
`"sample"`; `none` models the `TypeError` on an empty schedule
(`final` stays `None`). -/
def p_sample_loop (self : DPSSampler) (noiseF : ℕ → Batch) (N T : ℕ)
    (x_init : Batch) : Option Batch :=
  (p_sample_loop_progressive self noiseF N T x_init).getLast?.map
    (fun r => r.sample)

end DiffusionPosteriorSampling

/-- The state of a `DPMDiffusionPosteriorSampling` object
(respace.py lines 335-376) restricted to the fields the update step
reads.  The external collaborators from `dpm_solver` and
`gaussian_diffusion` are oracle function fields:
* `modelEps` is the `eps` head (`model_output[:, :3]`) of
  `self.ddpm_model` as computed by `get_model_output`;
* `predXStart` is `self.gaussian_diffusion._predict_xstart_from_eps`;
* `firstUpdate` is `self.dpm_solver_first_update(x, s, t, model_s)`;
* `secondUpdate` and `thirdUpdate` are
  `self.multistep_dpm_solver_second_update` /
  `..._third_update(x, model_prev_list, t_prev_list, t, solver_type)`;
* `normFn` and `gradFn` are `th.linalg.norm` and the autodiff oracle, as
  in `DPSSampler`. -/
structure DPMSampler where
  measurement_model : Batch → Batch
  measurement : Batch
  noise_model : NoiseModel
  step_size : ℚ
  normFn : Batch → ℚ
  gradFn : Batch → ℚ → Batch
  modelEps : Batch → ℚ → Batch
  predXStart : Batch → ℚ → Batch → Batch
  firstUpdate : Batch → ℚ → ℚ → Batch → Batch
  secondUpdate : Batch → List Batch → List ℚ → ℚ → String → Batch
  thirdUpdate : Batch → List Batch → List ℚ → ℚ → String → Batch

namespace DPMDiffusionPosteriorSampling

/-- `DPMDiffusionPosteriorSampling.dps_update` (respace.py lines
378-416): identical step-size arithmetic to the ancestral sampler's
update (`zeta_i = step_size / norm(abs(y_pred - measurement))` when
`loss.item() > 0`, else `step_size`), returning `x_old - zeta_i * grad`. -/
def dps_update (self : DPMSampler) (x : Batch) (t : ℚ) (x0 x_old : Batch) : Batch :=
  let y_pred := self.measurement_model x0
  let loss := mLoss self.noise_model y_pred self.measurement
  let grad := self.gradFn x t
  let zeta_i :=
    if 0 < loss then self.step_size / self.normFn (absResidual y_pred self.measurement)
    else self.step_size
  bsub x_old (bsmul zeta_i grad)

/-- The `order`-dispatched DPM proposal of `multistep_dpm_solver_update`
(respace.py lines 444-452): first/second/third solver update for orders
1/2/3, `ValueError` otherwise. -/
def odeProposal (self : DPMSampler) (x_t : Batch) (model_prev_list : List Batch)
    (t_prev_list : List ℚ) (t : ℚ) (order : ℕ) (solver_type : String) :
    Except String Batch :=
  match order with
  | 1 => Except.ok (self.firstUpdate x_t (t_prev_list.getLastD 0) t
      (model_prev_list.getLastD []))
  | 2 => Except.ok (self.secondUpdate x_t model_prev_list t_prev_list t solver_type)
  | 3 => Except.ok (self.thirdUpdate x_t model_prev_list t_prev_list t solver_type)
  | _ => Except.error "Solver order must be 1 or 2 or 3"

/-- `DPMDiffusionPosteriorSampling.multistep_dpm_solver_update`
(respace.py lines 429-460): `t_current = t_prev_list[-1]`, recompute
`eps` and `x0_pred`, take the order-appropriate DPM proposal, apply
`dps_update` to it, and return
`x_out = 0.7 * x_new + 0.3 * proposal`. -/
def multistep_dpm_solver_update (self : DPMSampler) (x_t : Batch)
    (model_prev_list : List Batch) (t_prev_list : List ℚ) (t : ℚ) (order : ℕ)
    (solver_type : String) : Except String Batch :=
  let t_current := t_prev_list.getLastD 0
  let x0_pred := self.predXStart x_t t_current (self.modelEps x_t t_current)
  match odeProposal self x_t model_prev_list t_prev_list t order solver_type with
  | Except.ok proposal =>
    Except.ok (badd (bsmul (7/10) (dps_update self x_t t x0_pred proposal))
      (bsmul (3/10) proposal))
  | Except.error e => Except.error e

end DPMDiffusionPosteriorSampling

/-- `DiffusionPosteriorSampling.__init__` (respace.py lines 146-171):
select the measurement loss from the noise-model name.  On any name
other than `"gaussian"` and `"poisson"` the code prints a message and
executes `return NotImplementedError`; a python `__init__` returning a
non-`None` value makes object construction raise
`TypeError: __init__() should return None`, so construction still fails
with a fatal error (and no default loss is installed). -/
def mkDiffusionPosteriorSampling (pmv : Batch → List ℕ → PMVOut)
    (measurement_model : Batch → Batch) (measurement : Batch)
    (noise_model : String) (step_size : ℚ) (normFn : Batch → ℚ)
    (gradFn : Batch → List ℕ → Batch) (expFn : ℚ → ℚ) :
    Except String DPSSampler :=
  if noise_model = "gaussian" then
    Except.ok { pmv := pmv, measurement_model := measurement_model,
                measurement := measurement, noise_model := NoiseModel.gaussian,
                step_size := step_size, normFn := normFn, gradFn := gradFn,
                expFn := expFn }
  else if noise_model = "poisson" then
    Except.ok { pmv := pmv, measurement_model := measurement_model,
                measurement := measurement, noise_model := NoiseModel.poisson,
                step_size := step_size, normFn := normFn, gradFn := gradFn,
                expFn := expFn }
  else
    Except.error "TypeError: __init__() should return None, not type"

/-- `DPMDiffusionPosteriorSampling.__init__` (respace.py lines 340-376):
select the measurement loss from the noise-model name; any other name
raises `NotImplementedError` directly. -/
def mkDPMDiffusionPosteriorSampling (measurement_model : Batch → Batch)
    (measurement : Batch) (noise_model : String) (step_size : ℚ)
    (normFn : Batch → ℚ) (gradFn : Batch → ℚ → Batch)
    (modelEps : Batch → ℚ → Batch) (predXStart : Batch → ℚ → Batch → Batch)
    (firstUpdate : Batch → ℚ → ℚ → Batch → Batch)
    (secondUpdate thirdUpdate : Batch → List Batch → List ℚ → ℚ → String → Batch) :
    Except String DPMSampler :=
  if noise_model = "gaussian" then
    Except.ok { measurement_model := measurement_model, measurement := measurement,
                noise_model := NoiseModel.gaussian, step_size := step_size,
                normFn := normFn, gradFn := gradFn, modelEps := modelEps,
                predXStart := predXStart, firstUpdate := firstUpdate,
                secondUpdate := secondUpdate, thirdUpdate := thirdUpdate }
  else if noise_model = "poisson" then
    Except.ok { measurement_model := measurement_model, measurement := measurement,
                noise_model := NoiseModel.poisson, step_size := step_size,
                normFn := normFn, gradFn := gradFn, modelEps := modelEps,
                predXStart := predXStart, firstUpdate := firstUpdate,
                secondUpdate := secondUpdate, thirdUpdate := thirdUpdate }
  else
    Except.error "NotImplementedError: Only 'gaussian' and 'poisson' noise models supported"

/-- A denoising model as seen by the spaced sampler: either a raw
callable or a `_WrappedModel` holding the raw callable together with the
translation data (respace.py lines 499-511). -/
inductive SamplerModel where
  | unwrapped (f : Batch → List ℚ → Batch) : SamplerModel
  | wrapped (f : Batch → List ℚ → Batch) (timestep_map : List ℕ)
      (rescale_timesteps : Bool) (original_num_steps : ℕ) : SamplerModel

/-- `SpacedDiffusion._wrap_model` (respace.py lines 107-112): if the
model is already a `_WrappedModel`, return it unchanged; otherwise wrap
it with this spaced schedule's `timestep_map`, `rescale_timesteps` and
`original_num_steps`. -/
def wrapModel (timestep_map : List ℕ) (rescale_timesteps : Bool)
    (original_num_steps : ℕ) : SamplerModel → SamplerModel
  | SamplerModel.unwrapped f =>
    SamplerModel.wrapped f timestep_map rescale_timesteps original_num_steps
  | SamplerModel.wrapped f m r o => SamplerModel.wrapped f m r o

/-- Invocation with a batch of spaced-schedule indices.
`_WrappedModel.__call__` (respace.py lines 506-511): translate each
index through `map_tensor[ts]`, optionally rescale by
`1000.0 / original_num_steps`, and call the underlying model; a raw
model receives the indices as given. -/
def callModel : SamplerModel → Batch → List ℕ → Batch
  | SamplerModel.unwrapped f, x, ts => f x (ts.map (fun t => (t : ℚ)))
  | SamplerModel.wrapped f tmap rescale orig, x, ts =>
    f x (if rescale
      then (ts.map (fun t => ((tmap.getD t 0 : ℕ) : ℚ))).map
        (fun v => v * (1000 / (orig : ℚ)))
      else ts.map (fun t => ((tmap.getD t 0 : ℕ) : ℚ)))

/-- A shaped tensor: a shape and row-major flat data.  Used for the
shape-sensitive behaviour of the two measurement-loss variants. -/
structure STensor where
  shape : List ℕ
  data : List ℚ
deriving DecidableEq

/-- `PoissonMseLoss.forward` (respace.py lines 126-132) on shaped
tensors: `assert x.shape == y.shape` is a fatal `AssertionError` on any
mismatch; on equal shapes the loss is
`(1 / (2 * |y|.clamp(min=1e-2)) * (x - y)^2).sum()`. -/
def poissonForward (x y : STensor) : Except String ℚ :=
  if x.shape = y.shape then
    Except.ok ((List.zipWith (fun a b => poissonWeight b * (a - b) ^ 2)
      x.data y.data).sum)
  else
    Except.error "AssertionError: Shape missmatch between operator and observation"

/-- Torch broadcast of two shapes, on right-aligned (reversed) dimension
lists: trailing dimensions must be equal or `1`, missing dimensions are
treated as `1`.  Modelled from torch's documented broadcasting
semantics, which `th.nn.MSELoss` follows. -/
def bcastDims : List ℕ → List ℕ → Option (List ℕ)
  | [], ys => some ys
  | x :: xs, [] => some (x :: xs)
  | x :: xs, y :: ys =>
    match bcastDims xs ys with
    | none => none
    | some r =>
      if x = y then some (x :: r)
      else if x = 1 then some (y :: r)
      else if y = 1 then some (x :: r)
      else none

/-- Torch broadcast of two shapes (most-significant dimension first). -/
def broadcastShapes (s t : List ℕ) : Option (List ℕ) :=
  (bcastDims s.reverse t.reverse).map List.reverse

/-- All multi-indices of a shape, in row-major order. -/
def allIdx : List ℕ → List (List ℕ)
  | [] => [[]]
  | d :: ds => (List.range d).flatMap (fun i => (allIdx ds).map (fun idx => i :: idx))

/-- Row-major offset of a multi-index in a shape. -/
def offsetOf (shape idx : List ℕ) : ℕ :=
  (List.zip shape idx).foldl (fun acc p => acc * p.1 + p.2) 0

/-- The element of a shaped tensor addressed by a broadcast multi-index:
drop the leading broadcast dimensions, clamp coordinates of size-`1`
dimensions to `0`, and look up the row-major offset. -/
def tAt (t : STensor) (idx : List ℕ) : ℚ :=
  t.data.getD
    (offsetOf t.shape
      (List.zipWith (fun d i => if d = 1 then 0 else i) t.shape
        (idx.drop (idx.length - t.shape.length)))) 0

/-- `th.nn.MSELoss(reduction="sum")`, the Gaussian measurement loss
selected by both `__init__`s.  Modelled from torch's documented
semantics: non-broadcastable shapes raise a `RuntimeError`; otherwise
the inputs are broadcast (a shape mismatch only produces a
`UserWarning`, not an error) and the sum of squared differences over the
broadcast shape is returned. -/
def mseLossSumTorch (x y : STensor) : Except String ℚ :=
  match broadcastShapes x.shape y.shape with
  | none => Except.error "RuntimeError: tensor sizes do not match"
  | some s => Except.ok (((allIdx s).map (fun idx => (tAt x idx - tAt y idx) ^ 2)).sum)

/-- A 4-D tensor (batch, channel, height, width) as a function into
values; mutation of torch storage is modelled by returning the caller's
tensor value after the call. -/
def Tensor4 : Type := ℕ → ℕ → ℕ → ℕ → ℚ

/-- A 3-D tensor (channel, height, width). -/
def Tensor3 : Type := ℕ → ℕ → ℕ → ℚ

/-- The memoized box of `BoxInpainting`
(measurement_models.py lines 86-92): `x1, x2, box_h, box_w` and the
`box_values` initialisation flag. -/
structure BoxState where
  x1 : ℕ
  x2 : ℕ
  boxH : ℕ
  boxW : ℕ
  boxValues : Bool

/-- `BoxInpainting.box` (measurement_models.py lines 94-114): on the
first call, store random corner coordinates (`r1`, `r2` model the two
`torch.randint` draws) and the clipped `128 x 128` box extent; later
calls leave the stored box unchanged. -/
def boxInit (s : BoxState) (r1 r2 h w : ℕ) : BoxState :=
  if s.boxValues then s
  else { x1 := r1, x2 := r2, boxH := min 128 h, boxW := min 128 w, boxValues := true }

/-- The value of the inpainting mask
(`torch.zeros((b, 1, 128, 128)) > 0.5`, measurement_models.py line 124):
all entries are `False`, i.e. `0` as a multiplicative factor. -/
def boxMaskVal : ℚ := if (0 : ℚ) > 1/2 then 1 else 0

/-- Membership of a pixel `(i, j)` in the stored box region
`[x1, x1 + box_h) x [x2, x2 + box_w)`. -/
def inBox (s : BoxState) (i j : ℕ) : Prop :=
  s.x1 ≤ i ∧ i < s.x1 + s.boxH ∧ s.x2 ≤ j ∧ j < s.x2 + s.boxW

instance (s : BoxState) (i j : ℕ) : Decidable (inBox s i j) := by
  unfold inBox
  infer_instance

/-- `BoxInpainting.__call__` on a 4-D input of height `h` and width `w`
(measurement_models.py lines 116-129): initialise the box, then execute
`tensor[:, :, x1:x1+box_h, x2:x2+box_w] *= mask` — an in-place
multiplication on the caller's own storage.  The result pair is the new
operator state and the caller's tensor after the call; the python return
value aliases the same storage. -/
def boxInpaintingCall4 (s : BoxState) (r1 r2 h w : ℕ) (t : Tensor4) :
    BoxState × Tensor4 :=
  (boxInit s r1 r2 h w,
    fun b c i j =>
      if inBox (boxInit s r1 r2 h w) i j then t b c i j * boxMaskVal else t b c i j)

/-- `BoxInpainting.__call__` on a 3-D input: `tensor.unsqueeze(0)`
creates a view of the same storage, so the in-place write mutates the
caller's 3-D tensor as well; the caller's tensor after the call is the
batch-`0` slice of the mutated view. -/
def boxInpaintingCall3 (s : BoxState) (r1 r2 h w : ℕ) (t : Tensor3) :
    BoxState × Tensor3 :=
  ((boxInpaintingCall4 s r1 r2 h w (fun _ c i j => t c i j)).1,
    fun c i j => (boxInpaintingCall4 s r1 r2 h w (fun _ c i j => t c i j)).2 0 c i j)

/-- `Identity.__call__` (measurement_models.py lines 47-48): returns the
tensor; no write to the input.  `(input after call, return value)`. -/
def identityCall (t : Tensor4) : Tensor4 × Tensor4 := (t, t)

/-- `Magnitude.__call__` (measurement_models.py lines 367-369):
`tensor.abs()` allocates a new tensor; the input is untouched. -/
def magnitudeCall (t : Tensor4) : Tensor4 × Tensor4 :=
  (t, fun b c i j => |t b c i j|)

/-- The memoized dropout mask of `RandomInpainting`
(measurement_models.py line 63): `None` until the first call. -/
structure RIState where
  mask : Option (ℕ → ℕ → ℕ → Bool)

/-- `RandomInpainting.__call__` (measurement_models.py lines 66-75):
memoize the random `(b, 1, h, w)` keep-mask (`rmask` models the
`torch.rand > noise_level` draw), then `tensor = tensor * mask` — a pure
multiplication allocating a new tensor, so the caller's input is
unmodified.  The triple is `(new state, input after call, return)`. -/
def randomInpaintingCall (s : RIState) (rmask : ℕ → ℕ → ℕ → Bool) (t : Tensor4) :
    RIState × Tensor4 × Tensor4 :=
  ({ mask := some (s.mask.getD rmask) }, t,
    fun b c i j => t b c i j * (if (s.mask.getD rmask) b i j then 1 else 0))

theorem zipWith_sum_nonneg {α β : Type} (f : α → β → ℚ) (hf : ∀ a b, 0 ≤ f a b) :
    ∀ (x : List α) (y : List β), 0 ≤ (List.zipWith f x y).sum := by
  intro x
  induction x with
  | nil => intro y; simp
  | cons a xs ih =>
    intro y
    cases y with
    | nil => simp
    | cons b ys =>
      simp only [List.zipWith_cons_cons, List.sum_cons]
      exact add_nonneg (hf a b) (ih ys)

theorem sqDiffSum_nonneg (x y : Signal) : 0 ≤ sqDiffSum x y :=
  zipWith_sum_nonneg _ (fun a b => by positivity) x y

theorem poissonWeight_pos (b : ℚ) : 0 < poissonWeight b := by
  unfold poissonWeight
  have h1 : (0 : ℚ) < max |b| (1 / 100) := lt_max_of_lt_right (by norm_num)
  positivity

theorem mLoss_nonneg (nm : NoiseModel) (x y : Batch) : 0 ≤ mLoss nm x y := by
  cases nm with
  | gaussian => exact zipWith_sum_nonneg _ sqDiffSum_nonneg x y
  | poisson =>
    refine zipWith_sum_nonneg _ (fun xs ys => ?_) x y
    refine zipWith_sum_nonneg _ (fun a b => ?_) xs ys
    have := poissonWeight_pos b
    positivity

/-- C1: `dps_update` returns `x_old - zeta * grad` where
`zeta = step_size / norm(|y_pred - y|)` when the measurement loss is
strictly positive and `zeta = step_size` when the loss is exactly zero
(the code branches on `loss.item() > 0`; since both loss variants are
nonnegative, the fallback branch is taken exactly when the loss is zero,
so the zero-residual case uses the base step size). -/
theorem C1_dps_update_adaptive_step (self : DPSSampler) (x : Batch) (t : List ℕ)
    (x0 x_old : Batch) :
    DiffusionPosteriorSampling.dps_update self x t x0 x_old =
      bsub x_old (bsmul
        (if mLoss self.noise_model (self.measurement_model x0) self.measurement = 0
         then self.step_size
         else self.step_size /
           self.normFn (absResidual (self.measurement_model x0) self.measurement))
        (self.gradFn x t)) := by
  unfold DiffusionPosteriorSampling.dps_update
  by_cases h : mLoss self.noise_model (self.measurement_model x0) self.measurement = 0
  · simp [h]
  · have hpos : 0 < mLoss self.noise_model (self.measurement_model x0) self.measurement :=
      lt_of_le_of_ne (mLoss_nonneg _ _ _) (Ne.symm h)
    simp [h, hpos]

theorem spacedGo_map (use : Finset ℕ) :
    ∀ (ac : List ℚ) (i : ℕ) (last : ℚ),
      (spacedGo use i ac last).2 =
        (List.range' i ac.length).filter (fun j => decide (j ∈ use)) := by
  intro ac
  induction ac with
  | nil => intro i last; simp [spacedGo]
  | cons a rest ih =>
    intro i last
    rw [List.length_cons, List.range'_succ]
    by_cases hi : i ∈ use
    · simp [spacedGo, hi, List.filter_cons, ih]
    · simp [spacedGo, hi, List.filter_cons, ih]

theorem spacedGo_lengths (use : Finset ℕ) :
    ∀ (ac : List ℚ) (i : ℕ) (last : ℚ),
      (spacedGo use i ac last).1.length = (spacedGo use i ac last).2.length := by
  intro ac
  induction ac with
  | nil => intro i last; simp [spacedGo]
  | cons a rest ih =>
    intro i last
    by_cases hi : i ∈ use
    · simp [spacedGo, hi, ih]
    · simp [spacedGo, hi, ih]

theorem spacedGo_mem_ge (use : Finset ℕ) (ac : List ℚ) (i : ℕ) (last : ℚ) :
    ∀ j ∈ (spacedGo use i ac last).2, i ≤ j ∧ j < i + ac.length := by
  intro j hj
  rw [spacedGo_map] at hj
  have := List.mem_range'_1.mp (List.mem_of_mem_filter hj)
  exact this

theorem spacedGo_getD_mem (use : Finset ℕ) (ac : List ℚ) (i : ℕ) (last : ℚ)
    (k : ℕ) (hk : k < (spacedGo use i ac last).2.length) :
    i ≤ (spacedGo use i ac last).2.getD k 0 := by
  rw [List.getD_eq_getElem _ _ hk]
  exact (spacedGo_mem_ge use ac i last _ (List.getElem_mem hk)).1

theorem spacedGo_roundtrip (use : Finset ℕ) :
    ∀ (ac : List ℚ) (i : ℕ) (last : ℚ), last ≠ 0 → (∀ a ∈ ac, a ≠ 0) →
      ∀ (k : ℕ), k < (spacedGo use i ac last).2.length →
        ((((spacedGo use i ac last).1.take (k + 1)).map (fun b => 1 - b)).prod) * last =
          ac.getD ((spacedGo use i ac last).2.getD k 0 - i) 0 := by
  intro ac
  induction ac with
  | nil => intro i last _ _ k hk; simp [spacedGo] at hk
  | cons a rest ih =>
    intro i last hlast hac k hk
    have ha : a ≠ 0 := hac a (List.mem_cons_self a rest)
    have hrest : ∀ b ∈ rest, b ≠ 0 := fun b hb => hac b (List.mem_cons_of_mem a hb)
    by_cases hi : i ∈ use
    · have hunfold : spacedGo use i (a :: rest) last =
          ((1 - a / last) :: (spacedGo use (i + 1) rest a).1,
            i :: (spacedGo use (i + 1) rest a).2) := by
        simp [spacedGo, hi]
      rw [hunfold] at hk ⊢
      cases k with
      | zero =>
        simp [div_mul_cancel₀ a hlast]
      | succ k =>
        have hk' : k < (spacedGo use (i + 1) rest a).2.length := by
          simpa using Nat.lt_of_succ_lt_succ hk
        have hmem : i + 1 ≤ (spacedGo use (i + 1) rest a).2.getD k 0 :=
          spacedGo_getD_mem use rest (i + 1) a k hk'
        have hrec := ih (i + 1) a ha hrest k hk'
        simp only [List.take_succ_cons, List.map_cons, List.prod_cons, List.getD_cons_succ]
        have hsub : 1 - (1 - a / last) = a / last := by ring
        rw [hsub]
        have hidx : (spacedGo use (i + 1) rest a).2.getD k 0 - i =
            ((spacedGo use (i + 1) rest a).2.getD k 0 - (i + 1)) + 1 := by omega
        rw [hidx, List.getD_cons_succ, ← hrec]
        field_simp
        ring
    · have hunfold : spacedGo use i (a :: rest) last = spacedGo use (i + 1) rest last := by
        simp [spacedGo, hi]
      rw [hunfold] at hk ⊢
      have hmem : i + 1 ≤ (spacedGo use (i + 1) rest last).2.getD k 0 :=
        spacedGo_getD_mem use rest (i + 1) last k hk
      have hrec := ih (i + 1) last hlast hrest k hk
      have hidx : (spacedGo use (i + 1) rest last).2.getD k 0 - i =
          ((spacedGo use (i + 1) rest last).2.getD k 0 - (i + 1)) + 1 := by omega
      rw [hidx, List.getD_cons_succ]
      exact hrec

/-- C2: the derived schedule of `SpacedDiffusion.__init__` satisfies the
round-trip property: `timestep_map` is the increasing enumeration of the
retained indices (the in-range members of `use_timesteps`, in increasing
order), `new_betas` has one entry per retained index, and for every
retained position `k` the cumulative product of `1 - new_beta` over the
first `k+1` entries equals `alphas_cumprod[timestep_map[k]]`, exactly,
under exact arithmetic (assuming the original cumulative fractions are
nonzero, as they are for a real noise schedule). -/
theorem C2_spaced_schedule_roundtrip (use : Finset ℕ) (ac : List ℚ)
    (hac : ∀ a ∈ ac, a ≠ 0) :
    (spacedSchedule use ac).2 =
      (List.range ac.length).filter (fun j => decide (j ∈ use)) ∧
    (spacedSchedule use ac).1.length = (spacedSchedule use ac).2.length ∧
    ∀ (k : ℕ), k < (spacedSchedule use ac).2.length →
      (((spacedSchedule use ac).1.take (k + 1)).map (fun b => 1 - b)).prod =
        ac.getD ((spacedSchedule use ac).2.getD k 0) 0 := by
  refine ⟨?_, spacedGo_lengths use ac 0 1, ?_⟩
  · rw [spacedSchedule, spacedGo_map, List.range_eq_range']
  · intro k hk
    have h := spacedGo_roundtrip use ac 0 1 one_ne_zero hac k hk
    simpa using h

/-- Witness for C2 at `use_timesteps = {0, 2}`,
`alphas_cumprod = [1/2, 1/4, 1/8]`: the map is `[0, 2]` and the product
of the retained signal fractions over both derived steps is `1/8`. -/
theorem C2_spaced_schedule_roundtrip_witness :
    (spacedSchedule ({0, 2} : Finset ℕ) [1/2, 1/4, 1/8]).2 = [0, 2] ∧
    (((spacedSchedule ({0, 2} : Finset ℕ) [1/2, 1/4, 1/8]).1.take 2).map
      (fun b => 1 - b)).prod = 1/8 := by
  have h := C2_spaced_schedule_roundtrip ({0, 2} : Finset ℕ) [1/2, 1/4, 1/8]
    (by norm_num)
  constructor
  · rw [h.1]; decide
  · have hk : 1 < (spacedSchedule ({0, 2} : Finset ℕ) [1/2, 1/4, 1/8]).2.length := by
      have h1 := h.1
      simp only [spacedSchedule] at h1 ⊢
      rw [h1]
      decide
    rw [h.2.2 1 hk]
    norm_num [spacedSchedule, spacedGo, Finset.mem_insert, Finset.mem_singleton]

theorem pyRound_floor_le (q : ℚ) : ⌊q⌋ ≤ pyRound q := by
  unfold pyRound; split_ifs <;> omega

theorem pyRound_le_floor_add_one (q : ℚ) : pyRound q ≤ ⌊q⌋ + 1 := by
  unfold pyRound; split_ifs <;> omega

theorem pyRound_intCast (n : ℤ) : pyRound (n : ℚ) = n := by
  unfold pyRound
  rw [Int.floor_intCast]
  norm_num

theorem pyRound_mono {a b : ℚ} (hab : a ≤ b) : pyRound a ≤ pyRound b := by
  have hf : ⌊a⌋ ≤ ⌊b⌋ := Int.floor_le_floor hab
  rcases eq_or_lt_of_le hf with heq | hlt
  · have hr : a - (⌊a⌋ : ℚ) ≤ b - (⌊a⌋ : ℚ) := by linarith
    unfold pyRound
    rw [← heq]
    split_ifs <;> first | omega | linarith
  · calc pyRound a ≤ ⌊a⌋ + 1 := pyRound_le_floor_add_one a
    _ ≤ ⌊b⌋ := hlt
    _ ≤ pyRound b := pyRound_floor_le b

theorem pyRound_step_strict {a b : ℚ} (h : a + 1 < b) : pyRound a + 1 ≤ pyRound b := by
  have hf : ⌊a⌋ + 1 ≤ ⌊b⌋ := by
    have hle : ⌊a + 1⌋ ≤ ⌊b⌋ := Int.floor_le_floor (le_of_lt h)
    rw [show (a + 1 : ℚ) = a + ((1 : ℤ) : ℚ) from by push_cast; ring,
      Int.floor_add_int] at hle
    exact hle
  rcases eq_or_lt_of_le hf with heq | hlt
  · have hra : a - (⌊a⌋ : ℚ) < b - ((⌊a⌋ : ℚ) + 1) := by linarith
    unfold pyRound
    rw [← heq]
    push_cast
    split_ifs <;> first | omega | linarith
  · have h1 := pyRound_le_floor_add_one a
    have h2 := pyRound_floor_le b
    omega

/-- The key gap property used for distinctness of the section-mode steps:
stepping `cur` by a stride of at least `1` advances the rounded value by
at least `1`, provided the stride is strictly above `1` or `cur` is an
integer (in the respacing loop `cur` starts at `0.0`, so a stride of
exactly `1` only ever rounds integers, where banker's rounding is exact). -/
theorem pyRound_step_cond {cur frac : ℚ} (h1 : 1 ≤ frac)
    (h2 : frac = 1 → ∃ c : ℤ, cur = (c : ℚ)) :
    pyRound cur + 1 ≤ pyRound (cur + frac) := by
  rcases eq_or_lt_of_le h1 with heq | hlt
  · rcases h2 heq.symm with ⟨c, rfl⟩
    rw [← heq,
      show ((c : ℚ) + 1) = ((c + 1 : ℤ) : ℚ) from by push_cast; ring,
      pyRound_intCast, pyRound_intCast]
  · exact pyRound_step_strict (by linarith)

theorem findStrideLoop_eq_some (n N : ℕ) :
    ∀ (fuel i s : ℕ), i ≤ s → s < i + fuel →
      (pyRange n s).length = N →
      (∀ t, i ≤ t → t < s → (pyRange n t).length ≠ N) →
      findStrideLoop n N i fuel = some s := by
  intro fuel
  induction fuel with
  | zero => intro i s h1 h2; omega
  | succ fuel ih =>
    intro i s h1 h2 hs hmin
    rcases eq_or_lt_of_le h1 with rfl | hlt
    · simp [findStrideLoop, hs]
    · have hi : (pyRange n i).length ≠ N := hmin i le_rfl hlt
      simp only [findStrideLoop, hi, if_false]
      exact ih (i + 1) s hlt (by omega) hs (fun t ht1 ht2 => hmin t (by omega) ht2)

theorem findStrideLoop_eq_none (n N : ℕ) :
    ∀ (fuel i : ℕ), (∀ t, i ≤ t → t < i + fuel → (pyRange n t).length ≠ N) →
      findStrideLoop n N i fuel = none := by
  intro fuel
  induction fuel with
  | zero => intro i _; rfl
  | succ fuel ih =>
    intro i hall
    have hi : (pyRange n i).length ≠ N := hall i le_rfl (by omega)
    simp only [findStrideLoop, hi, if_false]
    exact ih (i + 1) (fun t ht1 ht2 => hall t (by omega) (by omega))

/-- C5: on a `"ddimN"` specification, if some stride `s` in
`[1, num_timesteps - 1]` makes `len(range(0, num_timesteps, s))` equal to
the desired count `N`, then `space_timesteps` returns
`set(range(0, num_timesteps, s))` for the smallest such stride, and if no
such stride exists it raises a configuration error. -/
theorem C5_space_timesteps_ddim (n N : ℕ) :
    (∀ s : ℕ, 1 ≤ s → s < n → (pyRange n s).length = N →
      (∀ t, 1 ≤ t → t < s → (pyRange n t).length ≠ N) →
      space_timesteps_ddim n N = Except.ok (pyRange n s)) ∧
    ((∀ s, 1 ≤ s → s < n → (pyRange n s).length ≠ N) →
      ∃ msg, space_timesteps_ddim n N = Except.error msg) := by
  constructor
  · intro s h1 h2 hs hmin
    have hfind : findStrideLoop n N 1 (n - 1) = some s :=
      findStrideLoop_eq_some n N (n - 1) 1 s h1 (by omega) hs hmin
    rw [space_timesteps_ddim, hfind]
  · intro hall
    have hfind : findStrideLoop n N 1 (n - 1) = none :=
      findStrideLoop_eq_none n N (n - 1) 1 (fun t ht1 ht2 => hall t ht1 (by omega))
    rw [space_timesteps_ddim, hfind]
    exact ⟨_, rfl⟩

/-- Witness for C5 at `num_timesteps = 10`, `"ddim5"`: the smallest
stride is `2` and the returned steps are `{0, 2, 4, 6, 8}`. -/
theorem C5_space_timesteps_ddim_witness :
    space_timesteps_ddim 10 5 = Except.ok [0, 2, 4, 6, 8] := by
  have h := (C5_space_timesteps_ddim 10 5).1 2 (by norm_num) (by norm_num)
    (by decide)
    (by
      intro t ht1 ht2
      have ht : t = 1 := by omega
      subst ht
      decide)
  rw [show pyRange 10 2 = [0, 2, 4, 6, 8] from by decide] at h
  exact h

theorem pyRound_nonneg {q : ℚ} (h : 0 ≤ q) : 0 ≤ pyRound q := by
  have := pyRound_floor_le q
  have := Int.floor_nonneg.mpr h
  omega

theorem pyRound_le_of_le_int {q : ℚ} {m : ℤ} (h : q ≤ (m : ℚ)) : pyRound q ≤ m := by
  have := pyRound_mono h
  rw [pyRound_intCast] at this
  exact this

theorem takenSteps_length (start : ℤ) (frac : ℚ) :
    ∀ (k : ℕ) (cur : ℚ), (takenSteps start frac cur k).length = k := by
  intro k
  induction k with
  | zero => intro cur; rfl
  | succ k ih => intro cur; simp [takenSteps, ih]

theorem takenSteps_mem_lb (start : ℤ) {frac : ℚ} (hf : 0 ≤ frac) :
    ∀ (k : ℕ) (cur : ℚ), ∀ z ∈ takenSteps start frac cur k,
      start + pyRound cur ≤ z := by
  intro k
  induction k with
  | zero => intro cur z hz; simp [takenSteps] at hz
  | succ k ih =>
    intro cur z hz
    rcases List.mem_cons.mp hz with rfl | hz'
    · exact le_rfl
    · have h1 := ih (cur + frac) z hz'
      have h2 : pyRound cur ≤ pyRound (cur + frac) := pyRound_mono (by linarith)
      omega

theorem takenSteps_mem_ub (start : ℤ) (frac : ℚ) :
    ∀ (k : ℕ) (cur : ℚ) (M : ℤ),
      (∀ j : ℕ, j < k → cur + (j : ℚ) * frac ≤ (M : ℚ)) →
      ∀ z ∈ takenSteps start frac cur k, z ≤ start + M := by
  intro k
  induction k with
  | zero => intro cur M _ z hz; simp [takenSteps] at hz
  | succ k ih =>
    intro cur M hM z hz
    rcases List.mem_cons.mp hz with rfl | hz'
    · have : cur ≤ (M : ℚ) := by
        have := hM 0 (by omega)
        simpa using this
      have := pyRound_le_of_le_int this
      omega
    · refine ih (cur + frac) M (fun j hj => ?_) z hz'
      have := hM (j + 1) (by omega)
      push_cast at this ⊢
      linarith

theorem takenSteps_pairwise (start : ℤ) {frac : ℚ} (hf : 1 ≤ frac) :
    ∀ (k : ℕ) (cur : ℚ), curInt frac cur →
      (takenSteps start frac cur k).Pairwise (fun a b => a < b) := by
  intro k
  induction k with
  | zero => intro cur _; simp [takenSteps]
  | succ k ih =>
    intro cur hcur
    have hcur' : curInt frac (cur + frac) := by
      intro h1
      rcases hcur h1 with ⟨c, rfl⟩
      exact ⟨c + 1, by rw [h1]; push_cast; ring⟩
    refine List.pairwise_cons.mpr ⟨?_, ih (cur + frac) hcur'⟩
    intro z hz
    have hstep : pyRound cur + 1 ≤ pyRound (cur + frac) := pyRound_step_cond hf hcur
    have hlb := takenSteps_mem_lb start (by linarith : (0:ℚ) ≤ frac) k (cur + frac) z hz
    omega

theorem pyRound_zero : pyRound 0 = 0 := by
  simpa using pyRound_intCast 0

theorem fracStride_ge_one {size count : ℕ} (h : count ≤ size) :
    1 ≤ fracStride size count := by
  unfold fracStride
  split_ifs with hc
  · exact le_rfl
  · have hc2 : 2 ≤ count := by omega
    have hden : (0 : ℚ) < (count : ℚ) - 1 := by
      have : (2 : ℚ) ≤ (count : ℚ) := by exact_mod_cast hc2
      linarith
    rw [le_div_iff₀ hden]
    have : (count : ℚ) ≤ (size : ℚ) := by exact_mod_cast h
    linarith

theorem fracStride_mul_le {size count : ℕ} (h : count ≤ size) (hc : 1 ≤ count) :
    ∀ j : ℕ, j < count → (j : ℚ) * fracStride size count ≤ (size : ℚ) - 1 := by
  intro j hj
  unfold fracStride
  split_ifs with h1
  · have hj0 : j = 0 := by omega
    subst hj0
    have : (1 : ℚ) ≤ (size : ℚ) := by exact_mod_cast le_trans hc h
    simpa using by linarith
  · have hc2 : 2 ≤ count := by omega
    have hden : (0 : ℚ) < (count : ℚ) - 1 := by
      have : (2 : ℚ) ≤ (count : ℚ) := by exact_mod_cast hc2
      linarith
    have hjle : (j : ℚ) ≤ (count : ℚ) - 1 := by
      have : (j : ℚ) + 1 ≤ (count : ℚ) := by exact_mod_cast hj
      linarith
    have hnum : (0 : ℚ) ≤ (size : ℚ) - 1 := by
      have : (1 : ℚ) ≤ (size : ℚ) := by
        exact_mod_cast le_trans hc h
      linarith
    calc (j : ℚ) * (((size : ℚ) - 1) / ((count : ℚ) - 1))
        ≤ ((count : ℚ) - 1) * (((size : ℚ) - 1) / ((count : ℚ) - 1)) := by
          apply mul_le_mul_of_nonneg_right hjle
          positivity
      _ = (size : ℚ) - 1 := by field_simp

theorem sumSizes_formula (sp ex : ℕ) :
    ∀ (m i : ℕ), sumSizes sp ex i m = m * sp + (min (i + m) ex - min i ex) := by
  intro m
  induction m with
  | zero => intro i; simp [sumSizes]
  | succ m ih =>
    intro i
    rw [sumSizes, ih (i + 1), sectionSize, Nat.succ_mul]
    split_ifs with h <;> omega

theorem sumSizes_total (n m : ℕ) (hm : 0 < m) :
    sumSizes (n / m) (n % m) 0 m = n := by
  rw [sumSizes_formula]
  have h1 := Nat.div_add_mod n m
  have h2 : n % m < m := Nat.mod_lt n hm
  omega

theorem sectionLoop_ok (sp ex : ℕ) :
    ∀ (counts : List ℕ) (i start : ℕ),
      (∀ j, j < counts.length → counts.getD j 0 ≤ sectionSize sp ex (i + j)) →
      ∃ l, sectionLoop sp ex counts i start = Except.ok l ∧
        l.length = counts.sum ∧
        l.Pairwise (fun a b => a < b) ∧
        ∀ z ∈ l, (start : ℤ) ≤ z ∧
          z < (start : ℤ) + (sumSizes sp ex i counts.length : ℤ) := by
  intro counts
  induction counts with
  | nil =>
    intro i start _
    exact ⟨[], rfl, rfl, List.Pairwise.nil, by simp⟩
  | cons count rest ih =>
    intro i start h
    have hcs : count ≤ sectionSize sp ex i := by
      have := h 0 (by simp)
      simpa using this
    have hguard : ¬ (sectionSize sp ex i < count) := not_lt.mpr hcs
    obtain ⟨l2, hl2, hlen2, hpw2, hbd2⟩ :=
      ih (i + 1) (start + sectionSize sp ex i) (fun j hj => by
        have := h (j + 1) (by simpa using Nat.succ_lt_succ hj)
        simpa [Nat.add_assoc, Nat.add_comm 1 j, Nat.add_left_comm] using this)
    set size := sectionSize sp ex i with hsize
    set frac := fracStride size count with hfrac
    set taken := takenSteps (start : ℤ) frac 0 count with htaken
    have hfr1 : 1 ≤ frac := fracStride_ge_one hcs
    have htpw : taken.Pairwise (fun a b => a < b) :=
      takenSteps_pairwise (start : ℤ) hfr1 count 0 (fun _ => ⟨0, by norm_num⟩)
    have htlen : taken.length = count := takenSteps_length _ _ _ _
    have htlb : ∀ z ∈ taken, (start : ℤ) ≤ z := by
      intro z hz
      have := takenSteps_mem_lb (start : ℤ) (by linarith : (0:ℚ) ≤ frac) count 0 z hz
      rw [pyRound_zero] at this
      omega
    have htub : ∀ z ∈ taken, z ≤ (start : ℤ) + ((size : ℤ) - 1) := by
      rcases Nat.eq_zero_or_pos count with rfl | hcpos
      · intro z hz
        rw [htaken] at hz
        simp [takenSteps] at hz
      · refine takenSteps_mem_ub (start : ℤ) frac count 0 ((size : ℤ) - 1)
          (fun j hj => ?_)
        have := fracStride_mul_le hcs hcpos j hj
        push_cast
        linarith
    refine ⟨taken ++ l2, ?_, ?_, ?_, ?_⟩
    · show sectionLoop sp ex (count :: rest) i start = _
      rw [sectionLoop]
      rw [if_neg hguard, hl2]
    · simp [htlen, hlen2]
    · refine List.pairwise_append.mpr ⟨htpw, hpw2, ?_⟩
      intro a ha b hb
      have h1 := htub a ha
      have h2 := (hbd2 b hb).1
      push_cast at h2
      omega
    · intro z hz
      have hsum : sumSizes sp ex i (count :: rest).length =
          size + sumSizes sp ex (i + 1) rest.length := by
        rw [List.length_cons, hsize]
        rfl
      rcases List.mem_append.mp hz with hz1 | hz1
      · have h1 := htlb z hz1
        have h2 := htub z hz1
        rw [hsum]
        push_cast
        omega
      · have h1 := (hbd2 z hz1).1
        have h2 := (hbd2 z hz1).2
        rw [hsum]
        push_cast at h1 h2 ⊢
        omega

theorem sectionLoop_error (sp ex : ℕ) :
    ∀ (counts : List ℕ) (i start : ℕ),
      (∃ j, j < counts.length ∧ sectionSize sp ex (i + j) < counts.getD j 0) →
      ∃ msg, sectionLoop sp ex counts i start = Except.error msg := by
  intro counts
  induction counts with
  | nil => intro i start ⟨j, hj, _⟩; simp at hj
  | cons count rest ih =>
    intro i start ⟨j, hj, hlt⟩
    by_cases hguard : sectionSize sp ex i < count
    · refine ⟨"cannot divide section into the requested steps", ?_⟩
      rw [sectionLoop, if_pos hguard]
    · have hj0 : j ≠ 0 := by
        intro h0
        subst h0
        simp at hlt
        omega
      obtain ⟨j', rfl⟩ := Nat.exists_eq_succ_of_ne_zero hj0
      obtain ⟨msg, hmsg⟩ := ih (i + 1) (start + sectionSize sp ex i)
        ⟨j', by simpa using Nat.lt_of_succ_lt_succ hj, by
          have : i + (j' + 1) = i + 1 + j' := by omega
          rw [this] at hlt
          simpa using hlt⟩
      refine ⟨msg, ?_⟩
      rw [sectionLoop, if_neg hguard, hmsg]

/-- C6: for a nonempty list of per-section counts, if every section's
requested count is at most its section size, then the section branch of
`space_timesteps` succeeds and the returned retained-index set has
cardinality exactly `sum(section_counts)` (all produced indices are
distinct despite the rounding and the set conversion), with every index
in `[0, num_timesteps)`; and if any section's requested count exceeds its
size, it raises a configuration error. -/
theorem C6_space_timesteps_sections (n : ℕ) (counts : List ℕ) (hne : counts ≠ []) :
    ((∀ j, j < counts.length →
        counts.getD j 0 ≤ sectionSize (n / counts.length) (n % counts.length) j) →
      ∃ l, space_timesteps_sections n counts = Except.ok l ∧
        l.toFinset.card = counts.sum ∧
        ∀ z ∈ l, 0 ≤ z ∧ z < (n : ℤ)) ∧
    ((∃ j, j < counts.length ∧
        sectionSize (n / counts.length) (n % counts.length) j < counts.getD j 0) →
      ∃ msg, space_timesteps_sections n counts = Except.error msg) := by
  have hmpos : 0 < counts.length := List.length_pos.mpr hne
  constructor
  · intro h
    obtain ⟨l, hl, hlen, hpw, hbd⟩ :=
      sectionLoop_ok (n / counts.length) (n % counts.length) counts 0 0
        (fun j hj => by simpa using h j hj)
    refine ⟨l, hl, ?_, ?_⟩
    · have hnd : l.Nodup := hpw.imp (fun hab => ne_of_lt hab)
      rw [List.toFinset_card_of_nodup hnd, hlen]
    · intro z hz
      have := hbd z hz
      rw [sumSizes_total n counts.length hmpos] at this
      simpa using this
  · intro h
    exact sectionLoop_error _ _ counts 0 0 (by simpa using h)

/-- Witness for C6 at `num_timesteps = 10`, `section_counts = [2, 3]`:
both sections fit, the call succeeds, and the produced set has
cardinality `5` with all indices in `[0, 10)`. -/
theorem C6_space_timesteps_sections_witness :
    ∃ l, space_timesteps_sections 10 [2, 3] = Except.ok l ∧
      l.toFinset.card = 5 ∧ ∀ z ∈ l, 0 ≤ z ∧ z < (10 : ℤ) := by
  have h := (C6_space_timesteps_sections 10 [2, 3] (by decide)).1 (by decide)
  simpa using h

theorem loopGo_length (self : DPSSampler) (noiseF : ℕ → Batch) (N : ℕ) :
    ∀ (l : List ℕ) (x : Batch),
      (DiffusionPosteriorSampling.loopGo self noiseF N l x).length = l.length := by
  intro l
  induction l with
  | nil => intro x; rfl
  | cons i rest ih =>
    intro x
    simp [DiffusionPosteriorSampling.loopGo, ih]

theorem loopGo_getD (self : DPSSampler) (noiseF : ℕ → Batch) (N : ℕ) :
    ∀ (l : List ℕ) (x : Batch) (k : ℕ), k < l.length →
      (DiffusionPosteriorSampling.loopGo self noiseF N l x).getD k default =
        DiffusionPosteriorSampling.p_sample self
          (if k = 0 then x
           else ((DiffusionPosteriorSampling.loopGo self noiseF N l x).getD (k - 1)
             default).sample)
          (List.replicate N (l.getD k 0)) (noiseF (l.getD k 0)) := by
  intro l
  induction l with
  | nil => intro x k hk; simp at hk
  | cons i rest ih =>
    intro x k hk
    cases k with
    | zero => simp [DiffusionPosteriorSampling.loopGo]
    | succ k =>
      have hk' : k < rest.length := by simpa using Nat.lt_of_succ_lt_succ hk
      simp only [DiffusionPosteriorSampling.loopGo, List.getD_cons_succ,
        Nat.succ_ne_zero, if_false, Nat.succ_sub_one]
      cases k with
      | zero =>
        rw [ih _ 0 hk']
        simp
      | succ k2 =>
        rw [ih _ (k2 + 1) hk']
        simp [List.getD_cons_succ]

theorem range_reverse_getD (T k : ℕ) (hk : k < T) :
    ((List.range T).reverse).getD k 0 = T - 1 - k := by
  have hlen : k < (List.range T).reverse.length := by simpa using hk
  rw [List.getD_eq_getElem _ _ hlen, List.getElem_reverse]
  simp

theorem zipWith_add_allzero (f : ℚ → ℚ → ℚ) (hf : ∀ a b, f a b = 0) :
    ∀ (m x y : List ℚ), m.length ≤ x.length → m.length ≤ y.length →
      List.zipWith (fun p q => p + q) m (List.zipWith f x y) = m := by
  intro m
  induction m with
  | nil => intro x y _ _; simp
  | cons a ms ih =>
    intro x y hx hy
    cases x with
    | nil => simp at hx
    | cons x0 xs =>
      cases y with
      | nil => simp at hy
      | cons y0 ys =>
        simp only [List.zipWith_cons_cons, hf, add_zero, List.cons.injEq]
        exact ⟨trivial, ih xs ys (by simpa using hx) (by simpa using hy)⟩

theorem zipWith_ext {α β γ : Type} (f g : α → β → γ) (h : ∀ a b, f a b = g a b) :
    ∀ (x : List α) (y : List β), List.zipWith f x y = List.zipWith g x y := by
  intro x
  induction x with
  | nil => intro y; simp
  | cons a xs ih =>
    intro y
    cases y with
    | nil => simp
    | cons b ys => simp [h, ih]

/-- C3: a progressive ancestral sampling call over a schedule of length
`T` yields exactly `T` step records; the `k`-th record is produced from
the previous record's corrected sample (or the initial noise) at timestep
`T - 1 - k`, so the timesteps strictly decrease from `T - 1` to `0`
inclusive; each step's record consists of the `dps_update` correction of
the prior-only ancestral proposal together with the predicted clean
signal and the posterior mean; the proposal adds
`exp(0.5 * log_variance) * noise` to the mean exactly for the batch
elements with nonzero timestep and injects no noise at timestep `0`; and
the final record's sample (at timestep `0`) is `p_sample_loop`'s output. -/
theorem C3_ancestral_sampler_loop (self : DPSSampler) (noiseF : ℕ → Batch)
    (N T : ℕ) (x_init : Batch) :
    (DiffusionPosteriorSampling.p_sample_loop_progressive self noiseF N T x_init).length
        = T ∧
    (∀ k, k < T →
      (DiffusionPosteriorSampling.p_sample_loop_progressive self noiseF N T
          x_init).getD k default =
        DiffusionPosteriorSampling.p_sample self
          (if k = 0 then x_init
           else ((DiffusionPosteriorSampling.p_sample_loop_progressive self noiseF N T
              x_init).getD (k - 1) default).sample)
          (List.replicate N (T - 1 - k)) (noiseF (T - 1 - k))) ∧
    (∀ (x : Batch) (t : List ℕ) (noise : Batch),
      DiffusionPosteriorSampling.p_sample self x t noise =
        { sample := DiffusionPosteriorSampling.dps_update self x t
            (self.pmv x t).pred_xstart (ancestralProposal self (self.pmv x t) t noise),
          pred_xstart := (self.pmv x t).pred_xstart,
          mean := (self.pmv x t).mean }) ∧
    (∀ (out : PMVOut) (t : List ℕ) (noise : Batch) (b : ℕ),
      b < out.mean.length → t.length = out.mean.length →
      out.log_variance.length = out.mean.length → noise.length = out.mean.length →
      (out.log_variance.getD b []).length = (out.mean.getD b []).length →
      (noise.getD b []).length = (out.mean.getD b []).length →
      (ancestralProposal self out t noise).getD b [] =
        (if t.getD b 0 = 0 then out.mean.getD b []
         else List.zipWith (fun m e => m + e) (out.mean.getD b [])
           (List.zipWith (fun l nz => self.expFn (1/2 * l) * nz)
             (out.log_variance.getD b []) (noise.getD b [])))) ∧
    (0 < T →
      DiffusionPosteriorSampling.p_sample_loop self noiseF N T x_init =
        some (((DiffusionPosteriorSampling.p_sample_loop_progressive self noiseF N T
          x_init).getD (T - 1) default).sample)) := by
  have hlen : (DiffusionPosteriorSampling.p_sample_loop_progressive self noiseF N T
      x_init).length = T := by
    rw [DiffusionPosteriorSampling.p_sample_loop_progressive, loopGo_length]
    simp
  refine ⟨hlen, ?_, ?_, ?_, ?_⟩
  · intro k hk
    have hk' : k < ((List.range T).reverse).length := by simpa using hk
    have h := loopGo_getD self noiseF N ((List.range T).reverse) x_init k hk'
    rw [range_reverse_getD T k hk] at h
    exact h
  · intro x t noise
    rfl
  · intro out t noise b hb ht hlv hnz hrowlv hrownz
    have hbt : b < t.length := by omega
    have hblv : b < out.log_variance.length := by omega
    have hbnz : b < noise.length := by omega
    have hzipb : b < (out.log_variance.zip noise).length := by
      simp [List.length_zip]
      omega
    have hsb : b < (scaledNoise self.expFn t out.log_variance noise).length := by
      simp [scaledNoise, List.length_zip]
      omega
    have hpb : b < (ancestralProposal self out t noise).length := by
      simp [ancestralProposal, badd, zipWithB, scaledNoise, List.length_zip]
      omega
    rw [List.getD_eq_getElem _ _ hpb]
    simp only [ancestralProposal, badd, zipWithB, scaledNoise, List.getElem_zipWith,
      List.getElem_zip]
    rw [List.getD_eq_getElem _ _ hbt]
    by_cases h0 : t[b] = 0
    · rw [if_pos h0, h0]
      rw [List.getD_eq_getElem _ _ hb]
      have hz : ∀ (l nz : ℚ),
          (if (0 : ℕ) ≠ 0 then (1 : ℚ) else 0) * self.expFn (1/2 * l) * nz = 0 := by
        intro l nz
        norm_num
      apply zipWith_add_allzero _ hz
      · rw [List.getD_eq_getElem _ _ hblv] at hrowlv
        rw [List.getD_eq_getElem _ _ hb] at hrowlv
        omega
      · rw [List.getD_eq_getElem _ _ hbnz] at hrownz
        rw [List.getD_eq_getElem _ _ hb] at hrownz
        omega
    · rw [if_neg h0]
      rw [List.getD_eq_getElem _ _ hb, List.getD_eq_getElem _ _ hblv,
        List.getD_eq_getElem _ _ hbnz]
      congr 1
      refine zipWith_ext _ _ (fun l nz => ?_) _ _
      rw [if_pos h0]
      ring
  · intro hT
    rw [DiffusionPosteriorSampling.p_sample_loop, List.getLast?_eq_getElem?, hlen]
    have hT1 : T - 1 <
        (DiffusionPosteriorSampling.p_sample_loop_progressive self noiseF N T
          x_init).length := by omega
    rw [List.getElem?_eq_getElem hT1]
    rw [List.getD_eq_getElem _ _ hT1]
    rfl

/-- Witness for C3 on a one-step schedule (`T = 1`, batch size `1`) with
a concrete sampler: the single record is produced at timestep `0` from
the initial noise, a timestep-`0` batch element's proposal is exactly the
posterior mean (no injected noise), and the loop output is the last
record's sample. -/
theorem C3_ancestral_sampler_loop_witness :
    (DiffusionPosteriorSampling.p_sample_loop_progressive
        { pmv := fun x _ => { mean := x, log_variance := x, pred_xstart := x },
          measurement_model := fun b => b, measurement := [[0]],
          noise_model := NoiseModel.gaussian, step_size := 1,
          normFn := fun _ => 1, gradFn := fun _ _ => [[0]],
          expFn := fun q => q } (fun _ => [[1]]) 1 1 [[0]]).getD 0 default =
      DiffusionPosteriorSampling.p_sample
        { pmv := fun x _ => { mean := x, log_variance := x, pred_xstart := x },
          measurement_model := fun b => b, measurement := [[0]],
          noise_model := NoiseModel.gaussian, step_size := 1,
          normFn := fun _ => 1, gradFn := fun _ _ => [[0]],
          expFn := fun q => q } [[0]] (List.replicate 1 0) [[1]] ∧
    (ancestralProposal
        { pmv := fun x _ => { mean := x, log_variance := x, pred_xstart := x },
          measurement_model := fun b => b, measurement := [[0]],
          noise_model := NoiseModel.gaussian, step_size := 1,
          normFn := fun _ => 1, gradFn := fun _ _ => [[0]],
          expFn := fun q => q }
        { mean := [[2]], log_variance := [[0]], pred_xstart := [[0]] }
        [0] [[5]]).getD 0 [] = [(2 : ℚ)] ∧
    DiffusionPosteriorSampling.p_sample_loop
        { pmv := fun x _ => { mean := x, log_variance := x, pred_xstart := x },
          measurement_model := fun b => b, measurement := [[0]],
          noise_model := NoiseModel.gaussian, step_size := 1,
          normFn := fun _ => 1, gradFn := fun _ _ => [[0]],
          expFn := fun q => q } (fun _ => [[1]]) 1 1 [[0]] =
      some (((DiffusionPosteriorSampling.p_sample_loop_progressive
        { pmv := fun x _ => { mean := x, log_variance := x, pred_xstart := x },
          measurement_model := fun b => b, measurement := [[0]],
          noise_model := NoiseModel.gaussian, step_size := 1,
          normFn := fun _ => 1, gradFn := fun _ _ => [[0]],
          expFn := fun q => q } (fun _ => [[1]]) 1 1 [[0]]).getD 0 default).sample) := by
  have h := C3_ancestral_sampler_loop
    { pmv := fun x _ => { mean := x, log_variance := x, pred_xstart := x },
      measurement_model := fun b => b, measurement := [[0]],
      noise_model := NoiseModel.gaussian, step_size := 1,
      normFn := fun _ => 1, gradFn := fun _ _ => [[0]],
      expFn := fun q => q } (fun _ => [[1]]) 1 1 [[0]]
  refine ⟨h.2.1 0 (by norm_num), ?_, h.2.2.2.2 (by norm_num)⟩
  have hrow := h.2.2.2.1
    { mean := [[2]], log_variance := [[0]], pred_xstart := [[0]] }
    [0] [[5]] 0 (by norm_num) (by norm_num) (by norm_num) (by norm_num)
    (by norm_num) (by norm_num)
  rw [hrow]
  norm_num

theorem row_sub_zero (c : ℚ) :
    ∀ (row : Signal),
      List.zipWith (fun p q => p - q) row
        (List.map (fun v => c * v) (List.map (fun _ => (0 : ℚ)) row)) = row := by
  intro row
  induction row with
  | nil => rfl
  | cons a rest ih =>
    simp only [List.map_cons, List.zipWith_cons_cons, mul_zero, sub_zero, ih]

theorem bsub_bsmul_bzero (c : ℚ) : ∀ (p : Batch), bsub p (bsmul c (bzero p)) = p := by
  intro p
  induction p with
  | nil => rfl
  | cons row rest ih =>
    simp only [bsub, bsmul, bzero, zipWithB, List.map_cons, List.zipWith_cons_cons,
      List.cons.injEq] at ih ⊢
    exact ⟨row_sub_zero c row, ih⟩

theorem row_blend :
    ∀ (row : Signal),
      List.zipWith (fun p q => p + q) (List.map (fun v => (7:ℚ)/10 * v) row)
        (List.map (fun v => (3:ℚ)/10 * v) row) = row := by
  intro row
  induction row with
  | nil => rfl
  | cons a rest ih =>
    simp only [List.map_cons, List.zipWith_cons_cons, List.cons.injEq]
    exact ⟨by ring, ih⟩

theorem badd_blend_self : ∀ (p : Batch), badd (bsmul (7/10) p) (bsmul (3/10) p) = p := by
  intro p
  induction p with
  | nil => rfl
  | cons row rest ih =>
    simp only [badd, bsmul, zipWithB, List.map_cons, List.zipWith_cons_cons,
      List.cons.injEq] at ih ⊢
    exact ⟨row_blend row, ih⟩

/-- C4: every successful multistep solver step returns
`0.7 * (gradient-corrected proposal) + 0.3 * (uncorrected ODE proposal)`
(where the ODE proposal is the solver's own first-, second- or
third-order update according to `order`), and for `order = 1` with a zero
measurement-loss gradient at the current sample the correction is a
no-op, so the blended output equals the solver's first-order proposal
exactly. -/
theorem C4_multistep_blend (self : DPMSampler) (x_t : Batch)
    (mpl : List Batch) (tpl : List ℚ) (t : ℚ) (st : String) :
    (∀ (order : ℕ) (proposal : Batch),
      DPMDiffusionPosteriorSampling.odeProposal self x_t mpl tpl t order st =
        Except.ok proposal →
      DPMDiffusionPosteriorSampling.multistep_dpm_solver_update self x_t mpl tpl t
          order st =
        Except.ok (badd
          (bsmul (7/10) (DPMDiffusionPosteriorSampling.dps_update self x_t t
            (self.predXStart x_t (tpl.getLastD 0) (self.modelEps x_t (tpl.getLastD 0)))
            proposal))
          (bsmul (3/10) proposal))) ∧
    (DPMDiffusionPosteriorSampling.odeProposal self x_t mpl tpl t 1 st =
      Except.ok (self.firstUpdate x_t (tpl.getLastD 0) t (mpl.getLastD []))) ∧
    (self.gradFn x_t t = bzero (self.firstUpdate x_t (tpl.getLastD 0) t
        (mpl.getLastD [])) →
      DPMDiffusionPosteriorSampling.multistep_dpm_solver_update self x_t mpl tpl t 1 st =
        Except.ok (self.firstUpdate x_t (tpl.getLastD 0) t (mpl.getLastD []))) := by
  have hA : ∀ (order : ℕ) (proposal : Batch),
      DPMDiffusionPosteriorSampling.odeProposal self x_t mpl tpl t order st =
        Except.ok proposal →
      DPMDiffusionPosteriorSampling.multistep_dpm_solver_update self x_t mpl tpl t
          order st =
        Except.ok (badd
          (bsmul (7/10) (DPMDiffusionPosteriorSampling.dps_update self x_t t
            (self.predXStart x_t (tpl.getLastD 0) (self.modelEps x_t (tpl.getLastD 0)))
            proposal))
          (bsmul (3/10) proposal)) := by
    intro order proposal h
    rw [DPMDiffusionPosteriorSampling.multistep_dpm_solver_update, h]
  refine ⟨hA, rfl, ?_⟩
  intro hgrad
  set proposal := self.firstUpdate x_t (tpl.getLastD 0) t (mpl.getLastD []) with hp
  have h1 : DPMDiffusionPosteriorSampling.odeProposal self x_t mpl tpl t 1 st =
      Except.ok proposal := rfl
  have hdps : DPMDiffusionPosteriorSampling.dps_update self x_t t
      (self.predXStart x_t (tpl.getLastD 0) (self.modelEps x_t (tpl.getLastD 0)))
      proposal = proposal := by
    rw [DPMDiffusionPosteriorSampling.dps_update]
    rw [hgrad]
    exact bsub_bsmul_bzero _ proposal
  rw [hA 1 proposal h1, hdps, badd_blend_self]

/-- Witness for C4 with a concrete solver whose first-order update is
`[[5]]` and whose measurement-loss gradient is zero: the blended output
is exactly the first-order proposal. -/
theorem C4_multistep_blend_witness :
    DPMDiffusionPosteriorSampling.multistep_dpm_solver_update
      { measurement_model := fun b => b, measurement := [[0]],
        noise_model := NoiseModel.gaussian, step_size := 1,
        normFn := fun _ => 1, gradFn := fun _ _ => [[0]],
        modelEps := fun _ _ => [[0]], predXStart := fun x _ _ => x,
        firstUpdate := fun _ _ _ _ => [[5]],
        secondUpdate := fun _ _ _ _ _ => [[0]],
        thirdUpdate := fun _ _ _ _ _ => [[0]] }
      [[1]] [[[2]]] [3] (0 : ℚ) 1 "dpmsolver" = Except.ok [[5]] := by
  have h := (C4_multistep_blend
    { measurement_model := fun b => b, measurement := [[0]],
      noise_model := NoiseModel.gaussian, step_size := 1,
      normFn := fun _ => 1, gradFn := fun _ _ => [[0]],
      modelEps := fun _ _ => [[0]], predXStart := fun x _ _ => x,
      firstUpdate := fun _ _ _ _ => [[5]],
      secondUpdate := fun _ _ _ _ _ => [[0]],
      thirdUpdate := fun _ _ _ _ _ => [[0]] }
    [[1]] [[[2]]] [3] (0 : ℚ) "dpmsolver").2.2 (by norm_num [bzero])
  simpa using h

/-- C8: constructing either sampler with a noise-model name other than
`"gaussian"` or `"poisson"` fails with a fatal error at construction
(the multistep sampler raises `NotImplementedError`; the ancestral
sampler's `__init__` returns the exception class instead of raising it,
which python turns into a `TypeError` at construction time), and the
invalid name is never replaced by a default loss. -/
theorem C8_invalid_noise_model_fatal (pmv : Batch → List ℕ → PMVOut)
    (measurement_model : Batch → Batch) (measurement : Batch)
    (noise_model : String) (step_size : ℚ) (normFn : Batch → ℚ)
    (gradFnA : Batch → List ℕ → Batch) (expFn : ℚ → ℚ)
    (gradFnD : Batch → ℚ → Batch) (modelEps : Batch → ℚ → Batch)
    (predXStart : Batch → ℚ → Batch → Batch)
    (firstUpdate : Batch → ℚ → ℚ → Batch → Batch)
    (secondUpdate thirdUpdate : Batch → List Batch → List ℚ → ℚ → String → Batch)
    (h1 : noise_model ≠ "gaussian") (h2 : noise_model ≠ "poisson") :
    (∃ e, mkDiffusionPosteriorSampling pmv measurement_model measurement noise_model
      step_size normFn gradFnA expFn = Except.error e) ∧
    (∃ e, mkDPMDiffusionPosteriorSampling measurement_model measurement noise_model
      step_size normFn gradFnD modelEps predXStart firstUpdate secondUpdate
      thirdUpdate = Except.error e) := by
  constructor
  · exact ⟨"TypeError: __init__() should return None, not type",
      by rw [mkDiffusionPosteriorSampling, if_neg h1, if_neg h2]⟩
  · exact ⟨"NotImplementedError: Only 'gaussian' and 'poisson' noise models supported",
      by rw [mkDPMDiffusionPosteriorSampling, if_neg h1, if_neg h2]⟩

/-- Witness for C8 at the invalid noise-model name `"laplace"`: both
constructors fail. -/
theorem C8_invalid_noise_model_fatal_witness :
    (∃ e, mkDiffusionPosteriorSampling
      (fun x _ => { mean := x, log_variance := x, pred_xstart := x })
      (fun b => b) [[0]] "laplace" 1 (fun _ => 1) (fun _ _ => [[0]]) (fun q => q) =
        Except.error e) ∧
    (∃ e, mkDPMDiffusionPosteriorSampling (fun b => b) [[0]] "laplace" 1
      (fun _ => 1) (fun _ _ => [[0]]) (fun _ _ => [[0]]) (fun x _ _ => x)
      (fun _ _ _ _ => [[0]]) (fun _ _ _ _ _ => [[0]]) (fun _ _ _ _ _ => [[0]]) =
        Except.error e) :=
  C8_invalid_noise_model_fatal
    (fun x _ => { mean := x, log_variance := x, pred_xstart := x })
    (fun b => b) [[0]] "laplace" 1 (fun _ => 1) (fun _ _ => [[0]]) (fun q => q)
    (fun _ _ => [[0]]) (fun _ _ => [[0]]) (fun x _ _ => x) (fun _ _ _ _ => [[0]])
    (fun _ _ _ _ _ => [[0]]) (fun _ _ _ _ _ => [[0]])
    (by decide) (by decide)

/-- C9: `_wrap_model` is idempotent — wrapping an already-wrapped model
returns the same wrapper unchanged, so a double-wrapped model produces
exactly the same output as a single-wrapped model on every input sample
and every batch of spaced-schedule indices (the `timestep_map`
translation and the optional `1000/original_num_steps` rescaling are
applied exactly once). -/
theorem C9_wrap_model_idempotent (timestep_map : List ℕ) (rescale_timesteps : Bool)
    (original_num_steps : ℕ) (m : SamplerModel) :
    wrapModel timestep_map rescale_timesteps original_num_steps
        (wrapModel timestep_map rescale_timesteps original_num_steps m) =
      wrapModel timestep_map rescale_timesteps original_num_steps m ∧
    ∀ (x : Batch) (ts : List ℕ),
      callModel (wrapModel timestep_map rescale_timesteps original_num_steps
          (wrapModel timestep_map rescale_timesteps original_num_steps m)) x ts =
        callModel (wrapModel timestep_map rescale_timesteps original_num_steps m)
          x ts := by
  cases m with
  | unwrapped f => exact ⟨rfl, fun x ts => rfl⟩
  | wrapped f tmap r o => exact ⟨rfl, fun x ts => rfl⟩

/-- Counterexample to C7 as stated: predicted shape `[2]` and observed
shape `[1]` differ, yet the Gaussian variant (torch `MSELoss`) does not
fail — broadcasting computes the value `2` for data `[0, 0]` against
`[1]`. -/
theorem C7_gaussian_broadcast_counterexample :
    (STensor.mk [2] [0, 0]).shape ≠ (STensor.mk [1] [1]).shape ∧
    mseLossSumTorch (STensor.mk [2] [0, 0]) (STensor.mk [1] [1]) = Except.ok 2 := by
  constructor
  · decide
  · show Except.ok (((allIdx [2]).map _).sum) = Except.ok 2
    rw [show allIdx [2] = [[0], [1]] from by decide]
    norm_num [tAt, offsetOf]

/-- C7 amended: a shape mismatch is an immediate fatal error for the
Poisson variant (its `assert`); the Gaussian variant (torch `MSELoss`)
fails only when the two shapes are not broadcastable, and otherwise
computes a value under broadcasting. -/
theorem C7_shape_mismatch_amended (x y : STensor) (h : x.shape ≠ y.shape) :
    (∃ e, poissonForward x y = Except.error e) ∧
    (broadcastShapes x.shape y.shape = none →
      ∃ e, mseLossSumTorch x y = Except.error e) := by
  constructor
  · exact ⟨"AssertionError: Shape missmatch between operator and observation",
      by rw [poissonForward, if_neg h]⟩
  · intro hb
    exact ⟨"RuntimeError: tensor sizes do not match",
      by rw [mseLossSumTorch, hb]⟩

/-- Witness for the amended C7 at shapes `[2]` and `[3]`: the shapes
differ and are not broadcastable, so both variants fail. -/
theorem C7_shape_mismatch_amended_witness :
    (∃ e, poissonForward (STensor.mk [2] [0, 0]) (STensor.mk [3] [0, 0, 0]) =
      Except.error e) ∧
    (∃ e, mseLossSumTorch (STensor.mk [2] [0, 0]) (STensor.mk [3] [0, 0, 0]) =
      Except.error e) := by
  have h := C7_shape_mismatch_amended (STensor.mk [2] [0, 0])
    (STensor.mk [3] [0, 0, 0]) (by decide)
  exact ⟨h.1, h.2 (by decide)⟩

/-- C10: calling `BoxInpainting` mutates its argument in place: for a
4-D input (and for a 3-D input, through the unsqueezed view of the same
storage), every entry of the caller's own tensor inside the stored
`128 x 128` box region is zeroed by the call, entries outside it are
unchanged — so an input with a nonzero entry in the box is not preserved
across the call — while `Identity`, `Magnitude` and `RandomInpainting`
leave the caller's input tensor unmodified. -/
theorem C10_box_inpainting_mutates_in_place (s : BoxState) (r1 r2 h w : ℕ)
    (t4 : Tensor4) (t3 : Tensor3) (b c i j : ℕ) (sr : RIState)
    (rmask : ℕ → ℕ → ℕ → Bool) :
    (inBox (boxInpaintingCall4 s r1 r2 h w t4).1 i j →
      (boxInpaintingCall4 s r1 r2 h w t4).2 b c i j = 0) ∧
    (¬ inBox (boxInpaintingCall4 s r1 r2 h w t4).1 i j →
      (boxInpaintingCall4 s r1 r2 h w t4).2 b c i j = t4 b c i j) ∧
    (inBox (boxInpaintingCall3 s r1 r2 h w t3).1 i j →
      (boxInpaintingCall3 s r1 r2 h w t3).2 c i j = 0) ∧
    (¬ inBox (boxInpaintingCall3 s r1 r2 h w t3).1 i j →
      (boxInpaintingCall3 s r1 r2 h w t3).2 c i j = t3 c i j) ∧
    (identityCall t4).1 = t4 ∧
    (magnitudeCall t4).1 = t4 ∧
    (randomInpaintingCall sr rmask t4).2.1 = t4 := by
  have hmask : boxMaskVal = 0 := by norm_num [boxMaskVal]
  have h4 : ∀ (t : Tensor4) (b c : ℕ),
      (inBox (boxInpaintingCall4 s r1 r2 h w t).1 i j →
        (boxInpaintingCall4 s r1 r2 h w t).2 b c i j = 0) ∧
      (¬ inBox (boxInpaintingCall4 s r1 r2 h w t).1 i j →
        (boxInpaintingCall4 s r1 r2 h w t).2 b c i j = t b c i j) := by
    intro t b c
    constructor
    · intro hin
      show (if inBox (boxInit s r1 r2 h w) i j then t b c i j * boxMaskVal
        else t b c i j) = 0
      rw [if_pos (show inBox (boxInit s r1 r2 h w) i j from hin), hmask, mul_zero]
    · intro hout
      show (if inBox (boxInit s r1 r2 h w) i j then t b c i j * boxMaskVal
        else t b c i j) = t b c i j
      rw [if_neg (show ¬ inBox (boxInit s r1 r2 h w) i j from hout)]
  refine ⟨(h4 t4 b c).1, (h4 t4 b c).2, ?_, ?_, rfl, rfl, rfl⟩
  · intro hin
    exact (h4 (fun _ c2 i2 j2 => t3 c2 i2 j2) 0 c).1 hin
  · intro hout
    exact (h4 (fun _ c2 i2 j2 => t3 c2 i2 j2) 0 c).2 hout

/-- Witness for C10: a fresh `BoxInpainting` operator on a `200 x 300`
image with `randint` draws `(1, 2)` stores the box
`[1, 129) x [2, 130)`; the constant-`7` input tensor is zeroed at pixel
`(5, 10)` of the caller's own storage (both 4-D and 3-D), and is left at
`7` at pixel `(0, 0)` outside the box. -/
theorem C10_box_inpainting_mutates_in_place_witness :
    (boxInpaintingCall4 (BoxState.mk 0 0 0 0 false) 1 2 200 300
      (fun _ _ _ _ => 7)).2 0 0 5 10 = 0 ∧
    (boxInpaintingCall3 (BoxState.mk 0 0 0 0 false) 1 2 200 300
      (fun _ _ _ => 7)).2 0 5 10 = 0 ∧
    (boxInpaintingCall4 (BoxState.mk 0 0 0 0 false) 1 2 200 300
      (fun _ _ _ _ => 7)).2 0 0 0 0 = 7 := by
  have h := C10_box_inpainting_mutates_in_place (BoxState.mk 0 0 0 0 false) 1 2 200 300
    (fun _ _ _ _ => 7) (fun _ _ _ => 7) 0 0 5 10 (RIState.mk none) (fun _ _ _ => true)
  have h2 := C10_box_inpainting_mutates_in_place (BoxState.mk 0 0 0 0 false) 1 2 200 300
    (fun _ _ _ _ => 7) (fun _ _ _ => 7) 0 0 0 0 (RIState.mk none) (fun _ _ _ => true)
  exact ⟨h.1 (by decide), h.2.2.1 (by decide), h2.2.1 (by decide)⟩
